import Mathlib

/-!
Shallow embedding of the go-print LAN shared-printer scanner.

The repository is several near-duplicate variants of one program
(`main.go`, plus three unnamed variant files).  The definitions below
translate the pipeline of `main.go` (and, where a claim concerns the
bounded host-range policy, the `getNetworkRange` of the two variant
files that implement it):

* Go strings are modelled as `List Char` (`GoStr`); all string
  constants involved are ASCII, where Go's byte indices and our
  character indices coincide.
* `strings.Index`, `strings.Contains`, `strings.TrimSpace`,
  `strings.ToLower`, `strings.HasPrefix`, `strings.Split` and
  `bufio.Scanner`'s line splitting are implemented directly.
* External effects (the `net view` command, TCP dialing, the OS
  interface table) are inputs to the embedded functions.
-/

set_option autoImplicit false

namespace GoPrint

/-! ### Go string primitives -/

abbrev GoStr := List Char

def str (s : String) : GoStr := s.toList

/-- ASCII part of `unicode.IsSpace`, as used by `strings.TrimSpace`. -/
def isSpaceChar (c : Char) : Bool :=
  c == ' ' || c == '\t' || c == '\n' || c == '\x0b' || c == '\x0c' || c == '\r'

/-- `strings.TrimSpace` (ASCII fragment). -/
def trimSpace (s : GoStr) : GoStr :=
  ((s.dropWhile isSpaceChar).reverse.dropWhile isSpaceChar).reverse

/-- `strings.ToLower` on ASCII letters. -/
def lowerChar (c : Char) : Char :=
  if 'A' ≤ c && c ≤ 'Z' then Char.ofNat (c.toNat + 32) else c

def toLower (s : GoStr) : GoStr := s.map lowerChar

/-- `hasPrefixB pat s` decides whether `pat` is a prefix of `s`
(`strings.HasPrefix s pat`). -/
def hasPrefixB : GoStr → GoStr → Bool
  | [], _ => true
  | _ :: _, [] => false
  | p :: ps, c :: cs => p == c && hasPrefixB ps cs

/-- `strings.Index s pat`: index of the first occurrence of `pat` in `s`
(`none` when absent; Go returns `-1` there). -/
def goIndex : GoStr → GoStr → Option Nat
  | [], pat => if pat.isEmpty then some 0 else none
  | c :: cs, pat =>
    if hasPrefixB pat (c :: cs) then some 0 else (goIndex cs pat).map (· + 1)

/-- `strings.Contains s pat`. -/
def goContains (s pat : GoStr) : Bool := (goIndex s pat).isSome

/-- Accumulator pass of `bufio.Scanner` line splitting. -/
def splitLinesAux : GoStr → GoStr → List GoStr
  | [], acc => [acc.reverse]
  | c :: cs, acc =>
    if c == '\n' then acc.reverse :: splitLinesAux cs []
    else splitLinesAux cs (c :: acc)

/-- `bufio.ScanLines` drops one carriage return before the newline. -/
def dropCR (l : GoStr) : GoStr :=
  if l.getLast? == some '\r' then l.dropLast else l

/-- The sequence of lines a `bufio.Scanner` yields on `s`:
split at newlines, no trailing empty token, carriage returns stripped. -/
def splitLines (s : GoStr) : List GoStr :=
  if s.isEmpty then []
  else
    let raw := splitLinesAux s []
    let raw := if s.getLast? == some '\n' then raw.dropLast else raw
    raw.map dropCR

/-! ### Error taxonomy

All Go error returns in the pipeline are distinct message strings; we
model them as constructors. -/

inductive GoError
  | noInterfaces
  | invalidCIDR
  | emptyRange
  | netViewFailed
  | noShares
deriving DecidableEq

/-! ### Share Extractor (`getShares`, main.go lines 102-128) -/

def markerTok : GoStr := str "Print"

def ipcTok : GoStr := str "ipc$"

/-- The share, if any, that one output line contributes in the scan loop
of `getShares`: the line must contain the marker `"Print"` at a positive
first index; the share name is the trimmed prefix before that index and
is dropped when empty or when its lowercasing contains `"ipc$"`. -/
def lineShare (line : GoStr) : Option GoStr :=
  if goContains line markerTok then
    match goIndex line markerTok with
    | none => none
    | some printIndex =>
      if 0 < printIndex then
        let shareName := trimSpace (line.take printIndex)
        if !shareName.isEmpty && !goContains (toLower shareName) ipcTok then
          some shareName
        else none
      else none
  else none

/-- `getShares`, with the `net view` invocation abstracted to its
result: `none` models `cmd.CombinedOutput()` returning an error, `some
output` its captured output. -/
def getShares (netViewRes : Option GoStr) : Except GoError (List GoStr) :=
  match netViewRes with
  | none => .error .netViewFailed
  | some output =>
    let shares := (splitLines output).filterMap lineShare
    if shares.isEmpty then .error .noShares else .ok shares

/-! ### Range Deriver (`getNetworkRange` of the bounded-range variants)

The two variant files with `minHost = 100` / `maxHost = 110` mask the
parsed address, then keep each candidate `base.0 base.1 base.2 i` for
`i` in `[100,110]` that the network contains. -/

structure IPv4 where
  o0 : Nat
  o1 : Nat
  o2 : Nat
  o3 : Nat
deriving DecidableEq

/-- Octet `k` of the CIDR mask for prefix length `p` (`net.CIDRMask`). -/
def maskOctet (p k : Nat) : Nat := 256 - 2 ^ (8 - min 8 (p - 8 * k))

/-- `ip.Mask(mask)`: bytewise AND with the prefix mask. -/
def maskIP (ip : IPv4) (p : Nat) : IPv4 :=
  ⟨Nat.land ip.o0 (maskOctet p 0), Nat.land ip.o1 (maskOctet p 1),
   Nat.land ip.o2 (maskOctet p 2), Nat.land ip.o3 (maskOctet p 3)⟩

/-- `ipnet.Contains x` for the IPv4 network with masked base `base` and
prefix length `p`. -/
def netContains (base : IPv4) (p : Nat) (x : IPv4) : Bool :=
  maskIP x p == base

def digitChar (d : Nat) : Char := Char.ofNat (48 + d)

/-- Decimal rendering of one octet value (`0 ≤ n ≤ 255`). -/
def natToChars (n : Nat) : GoStr :=
  if n < 10 then [digitChar n]
  else if n < 100 then [digitChar (n / 10), digitChar (n % 10)]
  else [digitChar (n / 100), digitChar (n / 10 % 10), digitChar (n % 10)]

/-- `net.IP.String()` for an IPv4 address: dotted decimal. -/
def ipToChars (ip : IPv4) : GoStr :=
  natToChars ip.o0 ++ '.' :: (natToChars ip.o1 ++ '.' :: (natToChars ip.o2 ++ '.' :: natToChars ip.o3))

def isDigitChar (c : Char) : Bool := '0' ≤ c && c ≤ '9'

def decValAux : Nat → GoStr → Nat
  | acc, [] => acc
  | acc, c :: cs => decValAux (acc * 10 + (c.toNat - 48)) cs

/-- One dotted-quad field: decimal, non-empty, no leading zero, `≤ 255`. -/
def parseOctet (s : GoStr) : Option Nat :=
  if s.isEmpty then none
  else if !s.all isDigitChar then none
  else if 1 < s.length && s.head? == some '0' then none
  else
    let v := decValAux 0 s
    if v ≤ 255 then some v else none

/-- The prefix-length field after the slash: decimal, `≤ 32`. -/
def parsePrefixLen (s : GoStr) : Option Nat :=
  if s.isEmpty then none
  else if !s.all isDigitChar then none
  else
    let v := decValAux 0 s
    if v ≤ 32 then some v else none

def splitOnCharAux (sep : Char) : GoStr → GoStr → List GoStr
  | [], acc => [acc.reverse]
  | c :: cs, acc =>
    if c == sep then acc.reverse :: splitOnCharAux sep cs []
    else splitOnCharAux sep cs (c :: acc)

/-- `strings.Split s (String.singleton sep)`. -/
def splitOnChar (sep : Char) (s : GoStr) : List GoStr :=
  splitOnCharAux sep s []

def parseIPv4 (s : GoStr) : Option IPv4 :=
  match splitOnChar '.' s with
  | [p0, p1, p2, p3] =>
    match parseOctet p0, parseOctet p1, parseOctet p2, parseOctet p3 with
    | some a, some b, some c, some d => some ⟨a, b, c, d⟩
    | _, _, _, _ => none
  | _ => none

/-- `net.ParseCIDR` restricted to IPv4: the (unmasked) address and the
prefix length. -/
def parseCIDR (s : GoStr) : Option (IPv4 × Nat) :=
  match splitOnChar '/' s with
  | [addrPart, maskPart] =>
    match parseIPv4 addrPart, parsePrefixLen maskPart with
    | some ip, some p => some (ip, p)
    | _, _ => none
  | _ => none

/-- The host-number suffixes of the loop `for i := minHost; i <= maxHost`. -/
def hostNums : List Nat := [100, 101, 102, 103, 104, 105, 106, 107, 108, 109, 110]

/-- `getNetworkRange` of the bounded-range variants: parse the CIDR,
mask the address, keep the contained candidates with last octet in
`[100,110]`, and fail with `emptyRange` when none survives. -/
def getNetworkRange (cidr : GoStr) : Except GoError (List GoStr) :=
  match parseCIDR cidr with
  | none => .error .invalidCIDR
  | some (ip, p) =>
    let base := maskIP ip p
    let ips := hostNums.filterMap fun i =>
      let candidate : IPv4 := ⟨base.o0, base.o1, base.o2, i⟩
      if netContains base p candidate then some (ipToChars candidate) else none
    if ips.isEmpty then .error .emptyRange else .ok ips

/-! ### Address Enumerator (`getLocalInterfaces`, main.go lines 31-66)

The OS interface table is an input.  An element of `net.Interface.Addrs()`
is modelled by whether the `*net.IPNet` type assertion succeeds, whether
`IP.To4()` is non-nil, and the rendered `IP.String()` / `IPNet.String()`. -/

structure InterfaceInfo where
  name : GoStr
  ip : GoStr
  cidr : GoStr
deriving DecidableEq

structure GoAddr where
  isIPNet : Bool
  isIPv4 : Bool
  ipStr : GoStr
  cidrStr : GoStr
deriving DecidableEq

structure GoInterface where
  name : GoStr
  flagUp : Bool
  flagLoopback : Bool
  /-- `none` models `iface.Addrs()` returning an error. -/
  addrs : Option (List GoAddr)
deriving DecidableEq

def linkLocalPfx : GoStr := str "169.254."

/-- The inner `for _, addr := range addrs` loop appending to `result`. -/
def addrLoop (ifname : GoStr) : List GoAddr → List InterfaceInfo → List InterfaceInfo
  | [], result => result
  | a :: rest, result =>
    if a.isIPNet && a.isIPv4 then
      if hasPrefixB linkLocalPfx a.ipStr then addrLoop ifname rest result
      else addrLoop ifname rest (result ++ [⟨ifname, a.ipStr, a.cidrStr⟩])
    else addrLoop ifname rest result

/-- The outer `for _, iface := range interfaces` loop. -/
def ifaceLoop : List GoInterface → List InterfaceInfo → List InterfaceInfo
  | [], result => result
  | i :: rest, result =>
    if !i.flagUp || i.flagLoopback then ifaceLoop rest result
    else
      match i.addrs with
      | none => ifaceLoop rest result
      | some as => ifaceLoop rest (addrLoop i.name as result)

/-- `getLocalInterfaces` over a given interface table. -/
def getLocalInterfaces (ifaces : List GoInterface) : Except GoError (List InterfaceInfo) :=
  let result := ifaceLoop ifaces []
  if result.isEmpty then .error .noInterfaces else .ok result

/-- Stated from the spec contract of the Address Enumerator: an address
qualifies when it is an `IPNet` IPv4 address outside the
link-local-autoconfiguration block. -/
def qualAddr (a : GoAddr) : Bool :=
  a.isIPNet && a.isIPv4 && !hasPrefixB linkLocalPfx a.ipStr

/-- Stated from the spec contract: the entries one interface owes to the
result, one per qualifying address of an up, non-loopback interface. -/
def specIfaceEntries (i : GoInterface) : List InterfaceInfo :=
  if i.flagUp && !i.flagLoopback then
    (i.addrs.getD []).filterMap fun a =>
      if qualAddr a then some ⟨i.name, a.ipStr, a.cidrStr⟩ else none
  else []

/-- Stated from the spec contract: all entries the Enumerator owes. -/
def specEntries : List GoInterface → List InterfaceInfo
  | [] => []
  | i :: rest => specIfaceEntries i ++ specEntries rest

/-! ### Discovery Aggregator (main.go lines 191-244)

Per-host network effects are an input `HostEnv`: whether
`net.DialTimeout` on port 445 succeeded, and the `net view` result. -/

structure Printer where
  IP : GoStr
  Name : GoStr
  ShareName : GoStr
  FullPath : GoStr
deriving DecidableEq

/-- The `Printer` value a goroutine sends for host `ip` and share
`shareName` (`fullPath := fmt.Sprintf("\\\\%s\\%s", ip, shareName)`). -/
def mkPrinter (ip share : GoStr) : Printer :=
  { IP := ip, Name := share, ShareName := share,
    FullPath := str "\\\\" ++ ip ++ str "\\" ++ share }

structure HostEnv where
  dialOk : Bool
  netView : Option GoStr

/-- The items the per-host goroutine sends into the `printers` channel:
nothing if the dial fails, nothing if `getShares` fails, else one
printer per share. -/
def hostContrib (env : GoStr → HostEnv) (ip : GoStr) : List Printer :=
  if !(env ip).dialOk then []
  else
    match getShares (env ip).netView with
    | .error _ => []
    | .ok shareNames => shareNames.map (mkPrinter ip)

/-- The items of the result stream, in candidate order; the stream an
actual run drains is an arrival-order interleaving of these per-host
blocks. -/
def scanStream (env : GoStr → HostEnv) : List GoStr → List Printer
  | [] => []
  | ip :: rest => hostContrib env ip ++ scanStream env rest

/-- The consumer loop `for printer := range printers` keeping the first
arrival in `targetPrinter`. -/
def selectTarget (stream : List Printer) : Option Printer :=
  stream.foldl (fun t p => match t with | none => some p | some _ => t) none

/-- What `main` does after draining the stream: `noPrintersFound` is the
early return printing `未找到任何共享打印机`; `installTarget t` is the
branch that goes on to call `connectPrinter t` and `setDefaultPrinter t`. -/
inductive RunOutcome
  | noPrintersFound
  | installTarget (t : Printer)
deriving DecidableEq

def finishRun (stream : List Printer) : RunOutcome :=
  match selectTarget stream with
  | none => .noPrintersFound
  | some t => .installTarget t

/-! ### Concrete scenario inputs used by counterexamples and witnesses -/

/-- The share-listing output line of the spec example in section 8. -/
def exLineC2 : GoStr := str "HPPrinter            Print      Shared printer"

/-- A line whose trimmed text before the marker properly contains the
administrative-share token without being equal to it. -/
def exLineC3 : GoStr := str "xIPC$x   Print"

/-- An environment in which no candidate host accepts the SMB port. -/
def envAllFail : GoStr → HostEnv := fun _ => ⟨false, none⟩

/-- An environment in which every host is reachable and reports one
printer share named HPShare. -/
def envOneHost : GoStr → HostEnv := fun _ => ⟨true, some (str "HPShare   Print")⟩

/-! ### Helper lemmas -/

theorem foldl_absorb (l : List Printer) (q : Printer) :
    l.foldl (fun t p => match t with | none => some p | some _ => t) (some q) = some q := by
  induction l with
  | nil => rfl
  | cons a l ih => exact ih

theorem selectTarget_cons (p : Printer) (ps : List Printer) :
    selectTarget (p :: ps) = some p :=
  foldl_absorb ps p

theorem lineShare_of_index {line : GoStr} {i : Nat}
    (hidx : goIndex line markerTok = some i) :
    lineShare line =
      if 0 < i then
        (if !(trimSpace (line.take i)).isEmpty &&
            !goContains (toLower (trimSpace (line.take i))) ipcTok
         then some (trimSpace (line.take i)) else none)
      else none := by
  unfold lineShare goContains
  rw [hidx]
  simp

theorem lineShare_some_keep {line s : GoStr} (h : lineShare line = some s) :
    s ≠ [] ∧ goContains (toLower s) ipcTok = false := by
  unfold lineShare at h
  split at h <;> simp_all
  split at h <;> simp_all
  obtain ⟨h1, ⟨h2, h3⟩, h4⟩ := h
  subst h4
  exact ⟨h2, h3⟩

theorem lineShare_some_shape {line s : GoStr} {i : Nat}
    (hidx : goIndex line markerTok = some i)
    (h : lineShare line = some s) : s = trimSpace (line.take i) := by
  rw [lineShare_of_index hidx] at h
  split at h <;> simp_all

theorem lineShare_zero {line : GoStr}
    (hidx : goIndex line markerTok = some 0) : lineShare line = none := by
  rw [lineShare_of_index hidx]
  simp

theorem hasPrefixB_self (s : GoStr) : hasPrefixB s s = true := by
  induction s with
  | nil => rfl
  | cons c cs ih => simp [hasPrefixB, ih]

theorem goContains_self (s : GoStr) : goContains s s = true := by
  unfold goContains
  cases s with
  | nil => rfl
  | cons c cs => simp [goIndex, hasPrefixB_self]

theorem getShares_some (output : GoStr) :
    getShares (some output) =
      if ((splitLines output).filterMap lineShare).isEmpty then
        Except.error GoError.noShares
      else Except.ok ((splitLines output).filterMap lineShare) := rfl

theorem getShares_ok_lines {r : Option GoStr} {shares : List GoStr}
    (h : getShares r = .ok shares) :
    ∃ output, r = some output ∧ shares = (splitLines output).filterMap lineShare := by
  cases r with
  | none => simp [getShares] at h
  | some output =>
    refine ⟨output, rfl, ?_⟩
    rw [getShares_some] at h
    split at h
    · exact absurd h (by simp)
    · injection h with h
      exact h.symm

theorem getShares_mem_keep {r : Option GoStr} {shares : List GoStr} {s : GoStr}
    (h : getShares r = .ok shares) (hs : s ∈ shares) :
    s ≠ [] ∧ goContains (toLower s) ipcTok = false := by
  obtain ⟨output, -, hsh⟩ := getShares_ok_lines h
  subst hsh
  obtain ⟨line, -, hline⟩ := List.mem_filterMap.mp hs
  exact lineShare_some_keep hline

theorem addrLoop_eq (ifname : GoStr) (as : List GoAddr) (acc : List InterfaceInfo) :
    addrLoop ifname as acc =
      acc ++ as.filterMap fun a =>
        if qualAddr a then some ⟨ifname, a.ipStr, a.cidrStr⟩ else none := by
  induction as generalizing acc with
  | nil => simp [addrLoop]
  | cons a rest ih =>
    cases hA : a.isIPNet with
    | false => simp [addrLoop, hA, ih, qualAddr, List.filterMap_cons]
    | true =>
      cases hB : a.isIPv4 with
      | false => simp [addrLoop, hA, hB, ih, qualAddr, List.filterMap_cons]
      | true =>
        cases h2 : hasPrefixB linkLocalPfx a.ipStr with
        | true => simp [addrLoop, hA, hB, h2, ih, qualAddr, List.filterMap_cons]
        | false => simp [addrLoop, hA, hB, h2, ih, qualAddr, List.filterMap_cons]

theorem ifaceLoop_eq (l : List GoInterface) (acc : List InterfaceInfo) :
    ifaceLoop l acc = acc ++ specEntries l := by
  induction l generalizing acc with
  | nil => simp [ifaceLoop, specEntries]
  | cons i rest ih =>
    cases hu : i.flagUp with
    | false => simp [ifaceLoop, specEntries, specIfaceEntries, hu, ih]
    | true =>
      cases hl : i.flagLoopback with
      | true => simp [ifaceLoop, specEntries, specIfaceEntries, hu, hl, ih]
      | false =>
        cases haddr : i.addrs with
        | none => simp [ifaceLoop, specEntries, specIfaceEntries, hu, hl, haddr, ih]
        | some as =>
          simp [ifaceLoop, specEntries, specIfaceEntries, hu, hl, haddr, ih,
            addrLoop_eq, qualAddr]

theorem getNetworkRange_parsed {cidr : GoStr} {ip : IPv4} {p : Nat}
    (h : parseCIDR cidr = some (ip, p)) :
    getNetworkRange cidr =
      if (hostNums.filterMap fun i =>
            if netContains (maskIP ip p) p ⟨(maskIP ip p).o0, (maskIP ip p).o1, (maskIP ip p).o2, i⟩ then
              some (ipToChars ⟨(maskIP ip p).o0, (maskIP ip p).o1, (maskIP ip p).o2, i⟩)
            else none).isEmpty then
        .error .emptyRange
      else
        .ok (hostNums.filterMap fun i =>
          if netContains (maskIP ip p) p ⟨(maskIP ip p).o0, (maskIP ip p).o1, (maskIP ip p).o2, i⟩ then
            some (ipToChars ⟨(maskIP ip p).o0, (maskIP ip p).o1, (maskIP ip p).o2, i⟩)
          else none) := by
  unfold getNetworkRange
  rw [h]

theorem scanStream_append (env : GoStr → HostEnv) (l1 l2 : List GoStr) :
    scanStream env (l1 ++ l2) = scanStream env l1 ++ scanStream env l2 := by
  induction l1 with
  | nil => rfl
  | cons a l ih => simp [scanStream, ih]

theorem hostContrib_fail {env : GoStr → HostEnv} {ip : GoStr}
    (h : (env ip).dialOk = false ∨ ∃ e, getShares (env ip).netView = .error e) :
    hostContrib env ip = [] := by
  unfold hostContrib
  rcases h with h | ⟨e, he⟩
  · simp [h]
  · cases hd : (env ip).dialOk with
    | false => simp
    | true => simp [he]

theorem scanStream_nil_of_dead (env : GoStr → HostEnv) (ips : List GoStr)
    (hdead : ∀ ip ∈ ips, (env ip).dialOk = false) : scanStream env ips = [] := by
  induction ips with
  | nil => rfl
  | cons a l ih =>
    have h1 : hostContrib env a = [] :=
      hostContrib_fail (Or.inl (hdead a (List.mem_cons_self a l)))
    simp only [scanStream, h1, List.nil_append]
    exact ih fun ip hip => hdead ip (List.mem_cons_of_mem a hip)

/-! ### Claims -/

/-- Claim C1: the target printer of a run is the first item to arrive
in the result stream; for a stream headed by the pair sent for host `b`
with share `LaserJet`, the chosen target is installed and its
fully-qualified path is `\\<b>\LaserJet`, whatever printers arrive
later (`ps`, `rest` are arbitrary) and whatever candidate enumeration
produced the stream. -/
theorem c1_first_arrival_is_target (b : GoStr) (p : Printer) (ps rest : List Printer) :
    selectTarget (p :: ps) = some p ∧
    finishRun (mkPrinter b (str "LaserJet") :: rest) =
      RunOutcome.installTarget (mkPrinter b (str "LaserJet")) ∧
    (mkPrinter b (str "LaserJet")).FullPath = str "\\\\" ++ b ++ str "\\LaserJet" := by
  refine ⟨selectTarget_cons p ps, ?_, ?_⟩
  · unfold finishRun
    rw [selectTarget_cons]
  · show str "\\\\" ++ b ++ str "\\" ++ str "LaserJet" = str "\\\\" ++ b ++ str "\\LaserJet"
    simp [str, List.append_assoc]

/-- Claim C2, counterexample: on the spec example line the Share
Extractor yields the single share `HP`, not `HPPrinter`: the marker
`Print` first occurs at index 2, inside the text `HPPrinter` itself. -/
theorem c2_counterexample :
    getShares (some exLineC2) = .ok [str "HP"] ∧ str "HP" ≠ str "HPPrinter" :=
  ⟨rfl, by decide⟩

/-- Claim C2 as amended: on the spec example line the Share Extractor
yields exactly one share, named `HP`; in general every extracted share
name is the substring of the line before the first occurrence of the
marker token, trimmed of surrounding whitespace. -/
theorem c2_share_is_text_before_first_marker :
    getShares (some exLineC2) = .ok [str "HP"] ∧
    ∀ (line s : GoStr) (i : Nat), goIndex line markerTok = some i →
      lineShare line = some s → s = trimSpace (line.take i) :=
  ⟨rfl, fun _ _ _ hidx h => lineShare_some_shape hidx h⟩

/-- Claim C2, witness: the general part of the amended claim applied to
the example line itself. -/
theorem c2_witness :
    lineShare exLineC2 = some (str "HP") ∧ str "HP" = trimSpace (exLineC2.take 2) :=
  ⟨by decide, c2_share_is_text_before_first_marker.2 exLineC2 (str "HP") 2 (by decide) (by decide)⟩

/-- Claim C3, counterexample: the line `xIPC$x   Print` has trimmed
candidate name `xIPC$x`, which is non-empty and does not case-insensitively
equal `ipc$`, yet the Share Extractor excludes it — the code tests
substring containment, not equality. -/
theorem c3_counterexample :
    goIndex exLineC3 markerTok = some 9 ∧
    trimSpace (exLineC3.take 9) = str "xIPC$x" ∧
    str "xIPC$x" ≠ [] ∧
    toLower (str "xIPC$x") ≠ ipcTok ∧
    lineShare exLineC3 = none :=
  ⟨by decide, by decide, by decide, by decide, by decide⟩

/-- Claim C3 as amended: a candidate share (a line whose first marker
occurrence is at a positive index) is excluded if and only if its
trimmed name is empty or its lowercased name CONTAINS `ipc$` as a
substring; equality is not required. -/
theorem c3_excluded_iff_empty_or_lower_has_ipc (line : GoStr) (i : Nat)
    (hidx : goIndex line markerTok = some i) (hpos : 0 < i) :
    lineShare line = none ↔
      (trimSpace (line.take i) = [] ∨
       goContains (toLower (trimSpace (line.take i))) ipcTok = true) := by
  rw [lineShare_of_index hidx]
  cases hE : (trimSpace (line.take i)).isEmpty with
  | true =>
    simp [hpos, hE, List.isEmpty_iff.mp hE]
  | false =>
    cases hC : goContains (toLower (trimSpace (line.take i))) ipcTok with
    | true => simp [hpos, hE, hC]
    | false =>
      simp [hpos, hE, hC]
      intro h
      rw [h] at hE
      simp at hE

/-- Claim C3, witness: the amended exclusion criterion evaluated at the
counterexample line. -/
theorem c3_witness :
    lineShare exLineC3 = none ↔
      (trimSpace (exLineC3.take 9) = [] ∨
       goContains (toLower (trimSpace (exLineC3.take 9))) ipcTok = true) :=
  c3_excluded_iff_empty_or_lower_has_ipc exLineC3 9 (by decide) (by decide)

/-- Claim C4: on the block `192.168.0.0/24` the bounded-range deriver
returns exactly `192.168.0.100` through `192.168.0.110`, ascending, and
every candidate with last octet in `[100,110]` passes the containment
test of that block; in general, for a well-formed block, the result is
the `emptyRange` error exactly when no suffix in `[100,110]` yields a
contained address. -/
theorem c4_bounded_range_contract :
    getNetworkRange (str "192.168.0.0/24") =
      .ok [str "192.168.0.100", str "192.168.0.101", str "192.168.0.102",
           str "192.168.0.103", str "192.168.0.104", str "192.168.0.105",
           str "192.168.0.106", str "192.168.0.107", str "192.168.0.108",
           str "192.168.0.109", str "192.168.0.110"] ∧
    (∀ i ∈ hostNums, netContains (maskIP ⟨192, 168, 0, 0⟩ 24) 24 ⟨192, 168, 0, i⟩ = true) ∧
    ∀ (cidr : GoStr) (ip : IPv4) (p : Nat), parseCIDR cidr = some (ip, p) →
      (getNetworkRange cidr = .error .emptyRange ↔
        ∀ i ∈ hostNums,
          netContains (maskIP ip p) p
            ⟨(maskIP ip p).o0, (maskIP ip p).o1, (maskIP ip p).o2, i⟩ = false) := by
  refine ⟨rfl, by decide, fun cidr ip p h => ?_⟩
  rw [getNetworkRange_parsed h]
  constructor
  · intro he i hi
    split at he
    · rename_i hemp
      have hnone := (List.filterMap_eq_nil_iff.mp (List.isEmpty_iff.mp hemp)) i hi
      by_contra hc
      rw [Bool.not_eq_false] at hc
      simp [hc] at hnone
    · exact Except.noConfusion he
  · intro hall
    have hnil : (hostNums.filterMap fun i =>
        if netContains (maskIP ip p) p ⟨(maskIP ip p).o0, (maskIP ip p).o1, (maskIP ip p).o2, i⟩ then
          some (ipToChars ⟨(maskIP ip p).o0, (maskIP ip p).o1, (maskIP ip p).o2, i⟩)
        else none) = [] :=
      List.filterMap_eq_nil_iff.mpr fun i hi => by simp [hall i hi]
    simp [hnil]

/-- Claim C4, witness: the general equivalence applied to the block
`10.1.2.3/28`, whose `/28` network contains no address with last octet
in `[100,110]`. -/
theorem c4_witness :
    getNetworkRange (str "10.1.2.3/28") = .error .emptyRange ↔
      ∀ i ∈ hostNums,
        netContains (maskIP ⟨10, 1, 2, 3⟩ 28) 28
          ⟨(maskIP ⟨10, 1, 2, 3⟩ 28).o0, (maskIP ⟨10, 1, 2, 3⟩ 28).o1,
           (maskIP ⟨10, 1, 2, 3⟩ 28).o2, i⟩ = false :=
  c4_bounded_range_contract.2.2 (str "10.1.2.3/28") ⟨10, 1, 2, 3⟩ 28 (by decide)

/-- Claim C5: the Address Enumerator returns one entry per qualifying
IPv4 address (an `IPNet` IPv4 address outside the link-local block) of
every up, non-loopback interface, and fails with `noInterfaces`
precisely when that set of entries is empty. -/
theorem c5_enumerator_contract (ifaces : List GoInterface) :
    getLocalInterfaces ifaces =
      if specEntries ifaces = [] then .error .noInterfaces
      else .ok (specEntries ifaces) := by
  unfold getLocalInterfaces
  rw [ifaceLoop_eq]
  simp only [List.nil_append]
  split
  · rename_i hemp
    simp [List.isEmpty_iff.mp hemp]
  · rename_i hne
    have : ¬specEntries ifaces = [] := by
      intro h
      rw [h] at hne
      simp at hne
    simp [this]

/-- Claim C6: a per-host soft failure — failed SMB dial, failed remote
command, or zero qualifying shares — makes that host contribute zero
items, and the rest of the scan is exactly the scan without that host. -/
theorem c6_soft_failure_contributes_nothing (env : GoStr → HostEnv) (ip : GoStr)
    (pre post : List GoStr)
    (hfail : (env ip).dialOk = false ∨ ∃ e, getShares (env ip).netView = .error e) :
    hostContrib env ip = [] ∧
    scanStream env (pre ++ ip :: post) = scanStream env pre ++ scanStream env post := by
  have hnil := hostContrib_fail hfail
  refine ⟨hnil, ?_⟩
  rw [scanStream_append]
  simp [scanStream, hnil]

/-- Claim C6, witness: a failing host between two others drops out of
the stream without affecting them. -/
theorem c6_witness :
    hostContrib envAllFail (str "192.168.0.100") = [] ∧
    scanStream envAllFail
        ([str "192.168.0.101"] ++ str "192.168.0.100" :: [str "192.168.0.102"]) =
      scanStream envAllFail [str "192.168.0.101"] ++
        scanStream envAllFail [str "192.168.0.102"] :=
  c6_soft_failure_contributes_nothing envAllFail (str "192.168.0.100")
    [str "192.168.0.101"] [str "192.168.0.102"] (Or.inl rfl)

/-- Claim C7: an empty result stream makes the run end with
`noPrintersFound` and never reach the installation branch; in
particular this happens when no candidate host accepts the SMB port. -/
theorem c7_empty_stream_no_printers (env : GoStr → HostEnv) (ips : List GoStr)
    (hdead : ∀ ip ∈ ips, (env ip).dialOk = false) :
    (∀ stream : List Printer, stream = [] → finishRun stream = RunOutcome.noPrintersFound) ∧
    scanStream env ips = [] ∧
    finishRun (scanStream env ips) = RunOutcome.noPrintersFound ∧
    ∀ t : Printer, finishRun (scanStream env ips) ≠ RunOutcome.installTarget t := by
  have hempty := scanStream_nil_of_dead env ips hdead
  refine ⟨fun stream hs => by rw [hs]; rfl, hempty, by rw [hempty]; rfl, ?_⟩
  intro t h
  rw [hempty] at h
  exact RunOutcome.noConfusion h

/-- Claim C7, witness: a two-host candidate set in which neither host
accepts the SMB port. -/
theorem c7_witness :
    (∀ stream : List Printer, stream = [] → finishRun stream = RunOutcome.noPrintersFound) ∧
    scanStream envAllFail [str "192.168.0.100", str "192.168.0.101"] = [] ∧
    finishRun (scanStream envAllFail [str "192.168.0.100", str "192.168.0.101"]) =
      RunOutcome.noPrintersFound ∧
    ∀ t : Printer,
      finishRun (scanStream envAllFail [str "192.168.0.100", str "192.168.0.101"]) ≠
        RunOutcome.installTarget t :=
  c7_empty_stream_no_printers envAllFail [str "192.168.0.100", str "192.168.0.101"]
    fun _ _ => rfl

/-- Claim C8: every item a host places into the result stream has
fully-qualified path `\\<IP>\<ShareName>` built from its own fields,
and its share name is never `ipc$` in any letter case. -/
theorem c8_printer_invariants (env : GoStr → HostEnv) (ip : GoStr) (p : Printer)
    (hmem : p ∈ hostContrib env ip) :
    p.FullPath = str "\\\\" ++ p.IP ++ str "\\" ++ p.ShareName ∧
    toLower p.ShareName ≠ ipcTok := by
  unfold hostContrib at hmem
  split at hmem
  · simp at hmem
  · split at hmem
    · simp at hmem
    · rename_i shareNames heq
      obtain ⟨s, hsmem, hps⟩ := List.mem_map.mp hmem
      obtain ⟨-, hnc⟩ := getShares_mem_keep heq hsmem
      subst hps
      refine ⟨rfl, fun hlow => ?_⟩
      have hs : toLower s = ipcTok := hlow
      rw [hs, goContains_self ipcTok] at hnc
      exact Bool.noConfusion hnc

/-- Claim C8, witness: the invariants hold for the item produced by a
reachable host sharing `HPShare`. -/
theorem c8_witness :
    (mkPrinter (str "192.168.0.104") (str "HPShare")) ∈
        hostContrib envOneHost (str "192.168.0.104") ∧
    (mkPrinter (str "192.168.0.104") (str "HPShare")).FullPath =
      str "\\\\" ++ (mkPrinter (str "192.168.0.104") (str "HPShare")).IP ++
        str "\\" ++ (mkPrinter (str "192.168.0.104") (str "HPShare")).ShareName ∧
    toLower (mkPrinter (str "192.168.0.104") (str "HPShare")).ShareName ≠ ipcTok :=
  ⟨by decide, c8_printer_invariants envOneHost (str "192.168.0.104") _ (by decide)⟩

/-- Claim C9: a line whose first marker occurrence is at position 0
yields no share entry, even though the line contains the marker. -/
theorem c9_marker_at_start_yields_no_share (line : GoStr)
    (h : goIndex line markerTok = some 0) :
    lineShare line = none :=
  lineShare_zero h

/-- Claim C9, witness: a line beginning with `Printer`. -/
theorem c9_witness : lineShare (str "Printer   HP") = none :=
  c9_marker_at_start_yields_no_share (str "Printer   HP") (by decide)

/-- Claim C10: every candidate the bounded-range deriver produces is
the masked base address with its last octet replaced by some suffix in
`[100,110]` — its first three octets are those of the masked base —
and, concretely, a `/16` block still yields only the eleven addresses
of the base `/24`. -/
theorem c10_candidates_confined_to_base_24 :
    (∀ (cidr : GoStr) (ip : IPv4) (p : Nat) (l : List GoStr) (s : GoStr),
        parseCIDR cidr = some (ip, p) → getNetworkRange cidr = .ok l → s ∈ l →
        ∃ i, 100 ≤ i ∧ i ≤ 110 ∧
          s = ipToChars ⟨(maskIP ip p).o0, (maskIP ip p).o1, (maskIP ip p).o2, i⟩ ∧
          netContains (maskIP ip p) p
            ⟨(maskIP ip p).o0, (maskIP ip p).o1, (maskIP ip p).o2, i⟩ = true) ∧
    getNetworkRange (str "192.168.0.0/16") =
      .ok [str "192.168.0.100", str "192.168.0.101", str "192.168.0.102",
           str "192.168.0.103", str "192.168.0.104", str "192.168.0.105",
           str "192.168.0.106", str "192.168.0.107", str "192.168.0.108",
           str "192.168.0.109", str "192.168.0.110"] := by
  refine ⟨fun cidr ip p l s hparse hok hmem => ?_, rfl⟩
  rw [getNetworkRange_parsed hparse] at hok
  split at hok
  · exact Except.noConfusion hok
  · injection hok with hok
    subst hok
    obtain ⟨i, hi, hitem⟩ := List.mem_filterMap.mp hmem
    have hb : 100 ≤ i ∧ i ≤ 110 := by
      simp [hostNums] at hi
      rcases hi with rfl | rfl | rfl | rfl | rfl | rfl | rfl | rfl | rfl | rfl | rfl <;> omega
    split at hitem
    · rename_i hcon
      injection hitem with hitem
      exact ⟨i, hb.1, hb.2, hitem.symm, hcon⟩
    · exact Option.noConfusion hitem

/-- Claim C10, witness: the general part applied to the first candidate
produced for the block `192.168.0.0/16`. -/
theorem c10_witness :
    ∃ i, 100 ≤ i ∧ i ≤ 110 ∧
      str "192.168.0.100" =
        ipToChars ⟨(maskIP ⟨192, 168, 0, 0⟩ 16).o0, (maskIP ⟨192, 168, 0, 0⟩ 16).o1,
                   (maskIP ⟨192, 168, 0, 0⟩ 16).o2, i⟩ ∧
      netContains (maskIP ⟨192, 168, 0, 0⟩ 16) 16
        ⟨(maskIP ⟨192, 168, 0, 0⟩ 16).o0, (maskIP ⟨192, 168, 0, 0⟩ 16).o1,
         (maskIP ⟨192, 168, 0, 0⟩ 16).o2, i⟩ = true :=
  c10_candidates_confined_to_base_24.1 (str "192.168.0.0/16") ⟨192, 168, 0, 0⟩ 16
    [str "192.168.0.100", str "192.168.0.101", str "192.168.0.102",
     str "192.168.0.103", str "192.168.0.104", str "192.168.0.105",
     str "192.168.0.106", str "192.168.0.107", str "192.168.0.108",
     str "192.168.0.109", str "192.168.0.110"] (str "192.168.0.100")
    (by decide) rfl (by decide)

end GoPrint
